import Mathlib

/-!
Verification development for the jet-shooter simulation core
(`src/jet_shooter.py`).  The per-frame simulation (spawning, movement,
collision resolution, damage/score/lives bookkeeping) is embedded as
executable definitions over exact rationals; the float arithmetic of the
source is idealized as exact arithmetic.  The few places where the source
computes irrational values (`math.sin`, `Vector2.normalize`'s square root)
are additionally modelled over the reals (`fireShotsVelR`, `bombVelR`) for
the claims whose content is those exact values.
-/

namespace JetShooter

/-- Playfield width (`WIDTH = 900`). -/
def WIDTH : ℤ := 900

/-- Playfield height (`HEIGHT = 600`). -/
def HEIGHT : ℤ := 600

/-- Python `int()` applied to an exact rational: truncation toward zero. -/
def pyInt (q : ℚ) : ℤ := q.num / (q.den : ℤ)

/-- Result of `random.randint a b` for one oracle draw `q`: the draw is
mapped into `[a, b]` so that every value of the range is attainable and no
other value ever results.  The distribution itself is a property of the
pseudo-random generator and is outside the embedding. -/
def drawInt (a b : ℤ) (q : ℚ) : ℤ := a + ⌊q⌋ % (b - a + 1)

/-- Fractional part of an oracle draw, in `[0, 1)`; models the value of
`random.random()`. -/
def drawFrac (q : ℚ) : ℚ := q - ⌊q⌋

/-- Result of `random.uniform a b` for one oracle draw. -/
def drawUniform (a b q : ℚ) : ℚ := a + (b - a) * drawFrac q

/-- Planar vector of exact rationals (models `pygame.math.Vector2`). -/
abbrev Vec := ℚ × ℚ

/-- Fuel-driven integer square root (divide-and-conquer on `n / 4`), written
with structural recursion so that the kernel can evaluate it. -/
def sqrtFuel : ℕ → ℕ → ℕ
  | 0, _ => 0
  | fuel + 1, n =>
    if n < 4 then (if n = 0 then 0 else 1)
    else
      let r := 2 * sqrtFuel fuel (n / 4)
      if (r + 1) * (r + 1) ≤ n then r + 1 else r

/-- Rounded-down square root on ℕ (kernel-evaluable `Nat.sqrt`). -/
def natSqrt (n : ℕ) : ℕ := sqrtFuel n n

/-- Rounded-down square root on ℤ (0 on negatives, like `Int.sqrt`). -/
def intSqrt (m : ℤ) : ℤ := natSqrt m.toNat

/-- Rounded-down square root on ℚ (the `Rat.sqrt` construction). -/
def ratSqrt (q : ℚ) : ℚ := mkRat (intSqrt q.num) (natSqrt q.den)

/-- Model of `Vector2.normalize`, idealized over ℚ: `ratSqrt` agrees with
the real square root exactly when the squared norm is a perfect square,
which holds in every situation in which a theorem below depends on the
resulting value.  The zero-vector case (where the source raises
`ValueError`) is guarded at the call site (`Bomb.make`). -/
def vecNormalize (v : Vec) : Vec :=
  let n := ratSqrt (v.1 * v.1 + v.2 * v.2)
  (v.1 / n, v.2 / n)

/-- Axis-aligned rectangle with integer coordinates (`pygame.Rect`). -/
structure Rect where
  x : ℤ
  y : ℤ
  w : ℤ
  h : ℤ
deriving DecidableEq

/-- Collision test `pygame.Rect.colliderect`: strict overlap on both axes. -/
def Rect.collide (a b : Rect) : Bool :=
  a.x + a.w > b.x && a.x < b.x + b.w && a.y + a.h > b.y && a.y < b.y + b.h

/-- Rectangle of size `w × h` positioned by its center (the `get_rect
(center=...)` / `rect.center = ...` idiom; pygame stores `x = cx - w // 2`). -/
def rectFromCenter (c : ℤ × ℤ) (w h : ℤ) : Rect :=
  ⟨c.1 - w / 2, c.2 - h / 2, w, h⟩

/-- Player element (`'Air' | 'Water' | 'Fire'`). -/
inductive Element
  | Air
  | Water
  | Fire
deriving DecidableEq

/-- Enemy tier (`'Beginner' | 'Mid' | 'Hard'`). -/
inductive Kind
  | Beginner
  | Mid
  | Hard
deriving DecidableEq

/-- Player state: rect top-left corner (the sprite is scaled to 160×102),
lives, score, selected element and the fire cooldown counter. -/
structure Player where
  x : ℤ
  y : ℤ
  lives : ℤ
  score : ℤ
  element : Element
  fire_cooldown : ℤ
deriving DecidableEq

/-- Player bounding box (160 × 102 sprite). -/
def Player.rect (p : Player) : Rect := ⟨p.x, p.y, 160, 102⟩

/-- Player rect center. -/
def Player.center (p : Player) : ℤ × ℤ := (p.x + 80, p.y + 51)

/-- Held movement keys, one flag per direction (each flag covers the arrow
key and the WASD key that the source treats identically). -/
structure Keys where
  left : Bool
  right : Bool
  up : Bool
  down : Bool
deriving DecidableEq

/-- Model of `Player.update`: movement clamped to the playfield interior, and the
fire cooldown decrement (`if self.fire_cooldown > 0: self.fire_cooldown -= 1`). -/
def Player.update (keys : Keys) (p : Player) : Player :=
  let dx : ℤ := if keys.right then 4 else if keys.left then -4 else 0
  let dy : ℤ := if keys.down then 4 else if keys.up then -4 else 0
  { p with
    x := max 10 (min (WIDTH - 10 - 160) (p.x + dx))
    y := max 60 (min (HEIGHT - 10 - 102) (p.y + dy))
    fire_cooldown := if p.fire_cooldown > 0 then p.fire_cooldown - 1 else p.fire_cooldown }

/-- Projectile radius per element (identical between the sprite branch
`size // 2` and the procedural fallback of the source). -/
def projRadius : Element → ℤ
  | .Air => 16
  | .Water => 9
  | .Fire => 14

/-- Projectile color per element. -/
def projColor : Element → ℤ × ℤ × ℤ
  | .Air => (255, 28, 179)
  | .Water => (80, 160, 255)
  | .Fire => (255, 210, 20)

/-- Projectile: exact position, velocity, element, radius and the integer
rect center (`rect.center`). -/
structure Projectile where
  pos : Vec
  vel : Vec
  element : Element
  radius : ℤ
  c : ℤ × ℤ
deriving DecidableEq

/-- Model of `Projectile.__init__` (both call sites pass an integer center). -/
def Projectile.make (pos : ℤ × ℤ) (vel : Vec) (element : Element) : Projectile :=
  { pos := ((pos.1 : ℚ), (pos.2 : ℚ)), vel := vel, element := element,
    radius := projRadius element, c := pos }

/-- Projectile bounding box (square of side `2 * radius`). -/
def Projectile.rect (p : Projectile) : Rect :=
  rectFromCenter p.c (2 * p.radius) (2 * p.radius)

/-- Model of `Projectile.update`: integrate position, refresh the rect center, and
kill the sprite when the bounding box is fully outside the playfield
(`rect.bottom < 0 or rect.top > HEIGHT or rect.left > WIDTH or rect.right < 0`).
`none` models the `kill()`. -/
def Projectile.update (p : Projectile) : Option Projectile :=
  let pos : Vec := (p.pos.1 + p.vel.1, p.pos.2 + p.vel.2)
  let c := (pyInt pos.1, pyInt pos.2)
  let r := rectFromCenter c (2 * p.radius) (2 * p.radius)
  if r.y + r.h < 0 ∨ r.y > HEIGHT ∨ r.x > WIDTH ∨ r.x + r.w < 0 then none
  else some { p with pos := pos, c := c }

/-- Stand-in rational value for `math.sin(0.15) * 6` used by the executable
ℚ simulation (`sin 0.15 ≈ 0.1494381...`).  No theorem about the ℚ model
depends on this value; the exact real-valued burst is `fireShotsVelR`. -/
def waterVx : ℚ := 89663 / 100000

/-- Model of `Player.fire`: rejected while the cooldown is positive, otherwise the
cooldown is reset to 14 and the element-dependent burst is returned. -/
def Player.fire (p : Player) : List Projectile × Player :=
  if p.fire_cooldown > 0 then ([], p)
  else
    let c := p.center
    let shots : List Projectile :=
      match p.element with
      | .Air => [Projectile.make (c.1, c.2 - 10) (0, -8) .Air]
      | .Water =>
          [Projectile.make (c.1, c.2 - 10) (-waterVx, -6) .Water,
           Projectile.make (c.1, c.2 - 10) (0, -6) .Water,
           Projectile.make (c.1, c.2 - 10) (waterVx, -6) .Water]
      | .Fire => [Projectile.make (c.1, c.2 - 10) (0, -12) .Fire]
    (shots, { p with fire_cooldown := 14 })

/-- Enemy hit points per kind. -/
def kindHp : Kind → ℤ
  | .Beginner => 1
  | .Mid => 2
  | .Hard => 3

/-- Enemy speed per kind. -/
def kindSpeed : Kind → ℚ
  | .Beginner => 1
  | .Mid => 6 / 5
  | .Hard => 9 / 10

/-- Enemy explosion color per kind. -/
def kindColor : Kind → ℤ × ℤ × ℤ
  | .Beginner => (90, 200, 255)
  | .Mid => (255, 120, 90)
  | .Hard => (255, 80, 200)

/-- Enemy: kind, exact position, hp, speed, color, sway direction fixed at
spawn, bomb shoot timer and integer rect center (sprite scaled to 40×28). -/
structure Enemy where
  kind : Kind
  pos : Vec
  hp : ℤ
  speed : ℚ
  color : ℤ × ℤ × ℤ
  direction : Vec
  shoot_timer : ℤ
  c : ℤ × ℤ
deriving DecidableEq

/-- Model of `Enemy.__init__` with the two random draws of the constructor passed in
(`u` the sway sample of `random.uniform(-0.6, 0.6)`, `t0` the initial
`random.randint(40, 120)` shoot timer). -/
def Enemy.make (pos : ℤ × ℤ) (kind : Kind) (u : ℚ) (t0 : ℤ) : Enemy :=
  { kind := kind, pos := ((pos.1 : ℚ), (pos.2 : ℚ)), hp := kindHp kind,
    speed := kindSpeed kind, color := kindColor kind,
    direction := vecNormalize (u, 1), shoot_timer := t0, c := pos }

/-- Enemy bounding box (40 × 28). -/
def Enemy.rect (e : Enemy) : Rect := rectFromCenter e.c 40 28

/-- Model of `Enemy.update`: drift along the fixed direction, refresh the rect
center, kill when `rect.top > HEIGHT + 20`. -/
def Enemy.update (e : Enemy) : Option Enemy :=
  let pos : Vec := (e.pos.1 + e.direction.1 * e.speed, e.pos.2 + e.direction.2 * e.speed)
  let c := (pyInt pos.1, pyInt pos.2)
  if c.2 - 14 > HEIGHT + 20 then none
  else some { e with pos := pos, c := c }

/-- Bomb: exact position, fixed velocity, integer rect center (10 × 10). -/
structure Bomb where
  pos : Vec
  vel : Vec
  c : ℤ × ℤ
deriving DecidableEq

/-- Model of `Bomb.__init__`: the velocity is the normalized direction from `pos`
toward `target` scaled by 4.5, fixed once and for all.  `normalize` raises
`ValueError` on the zero vector, modelled as `none`. -/
def Bomb.make (pos target : ℤ × ℤ) : Option Bomb :=
  let p : Vec := ((pos.1 : ℚ), (pos.2 : ℚ))
  let d : Vec := ((target.1 : ℚ) - p.1, (target.2 : ℚ) - p.2)
  if d = (0, 0) then none
  else
    let dir := vecNormalize d
    some { pos := p, vel := (dir.1 * (9 / 2), dir.2 * (9 / 2)), c := pos }

/-- Bomb bounding box (10 × 10). -/
def Bomb.rect (b : Bomb) : Rect := rectFromCenter b.c 10 10

/-- Model of `Bomb.update`: integrate position, refresh rect center, kill when
`rect.top > HEIGHT or rect.left > WIDTH or rect.right < 0`. -/
def Bomb.update (b : Bomb) : Option Bomb :=
  let pos : Vec := (b.pos.1 + b.vel.1, b.pos.2 + b.vel.2)
  let c := (pyInt pos.1, pyInt pos.2)
  if c.2 - 5 > HEIGHT ∨ c.1 - 5 > WIDTH ∨ c.1 + 5 < 0 then none
  else some { b with pos := pos, c := c }

/-- Explosion marker: center, radius, color and remaining lifetime. -/
structure Explosion where
  c : ℤ × ℤ
  radius : ℤ
  color : ℤ × ℤ × ℤ
  lifetime : ℤ
deriving DecidableEq

/-- Model of `Explosion.__init__` (lifetime 18). -/
def Explosion.make (c : ℤ × ℤ) (radius : ℤ) (color : ℤ × ℤ × ℤ) : Explosion :=
  ⟨c, radius, color, 18⟩

/-- Model of `Explosion.update`: decrement the lifetime, kill at `≤ 0`. -/
def Explosion.update (x : Explosion) : Option Explosion :=
  let l := x.lifetime - 1
  if l ≤ 0 then none else some { x with lifetime := l }

/-- Model of `spawn_enemy` together with the draws inside `Enemy.__init__`:
a random column in `[40, WIDTH - 40]`, a kind selected by
`random.choices(kinds, weights=[0.6, 0.3, 0.1])` (cumulative thresholds of
a single `random.random()` sample), spawn at the top edge `y = -20`. -/
def spawn_enemy (qx qr qu qt : ℚ) : Enemy :=
  let x := drawInt 40 (WIDTH - 40) qx
  let r := drawFrac qr
  let kind : Kind := if r < 6 / 10 then .Beginner else if r < 9 / 10 then .Mid else .Hard
  Enemy.make (x, -20) kind (drawUniform (-6 / 10) (6 / 10) qu) (drawInt 40 120 qt)

/-- Whole simulation state of the main loop, including the oracle cursor
for the random draws. -/
structure State where
  player : Player
  enemies : List Enemy
  projectiles : List Projectile
  bombs : List Bomb
  explosions : List Explosion
  spawn_timer : ℤ
  running : Bool
  rng : ℕ
deriving DecidableEq

/-- Discrete keydown events of one tick (plus window close). -/
inductive Ev
  | quit
  | escape
  | space
  | k1
  | k2
  | k3
  | kq
  | ke
deriving DecidableEq

/-- Input of one tick: the ordered event list and the held-keys snapshot. -/
structure Input where
  events : List Ev
  keys : Keys

/-- Element cycling with `Q` (previous, index − 1 mod 3). -/
def cyclePrev : Element → Element
  | .Air => .Fire
  | .Water => .Air
  | .Fire => .Water

/-- Element cycling with `E` (next, index + 1 mod 3). -/
def cycleNext : Element → Element
  | .Air => .Water
  | .Water => .Fire
  | .Fire => .Air

/-- One step of the event loop at the top of a tick. -/
def processEvent (s : State) (e : Ev) : State :=
  match e with
  | .quit => { s with running := false }
  | .escape => { s with running := false }
  | .space =>
      let fired := s.player.fire
      { s with player := fired.2, projectiles := s.projectiles ++ fired.1 }
  | .k1 => { s with player := { s.player with element := .Air } }
  | .k2 => { s with player := { s.player with element := .Water } }
  | .k3 => { s with player := { s.player with element := .Fire } }
  | .kq => { s with player := { s.player with element := cyclePrev s.player.element } }
  | .ke => { s with player := { s.player with element := cycleNext s.player.element } }

/-- Event phase of a tick. -/
def processEvents (evs : List Ev) (s : State) : State := evs.foldl processEvent s

/-- Spawn phase: decrement the countdown; at `≤ 0` reset it to
`randint(18, 42)` and append one freshly spawned enemy. -/
def spawnPhase (o : ℕ → ℚ) (s : State) : State :=
  let t := s.spawn_timer - 1
  if t ≤ 0 then
    { s with
      spawn_timer := drawInt 18 42 (o s.rng)
      enemies := s.enemies ++ [spawn_enemy (o (s.rng + 1)) (o (s.rng + 2)) (o (s.rng + 3)) (o (s.rng + 4))]
      rng := s.rng + 5 }
  else { s with spawn_timer := t }

/-- Update phase: `all_sprites.update(keys)` advances the player, every
projectile, every enemy and every bomb once; then `projectiles.update()`
and `bombs.update()` advance projectiles and bombs a second time, and
`explosions.update()` ages the explosions. -/
def updatePhase (keys : Keys) (s : State) : State :=
  { s with
    player := s.player.update keys
    projectiles := (s.projectiles.filterMap Projectile.update).filterMap Projectile.update
    enemies := s.enemies.filterMap Enemy.update
    bombs := (s.bombs.filterMap Bomb.update).filterMap Bomb.update
    explosions := s.explosions.filterMap Explosion.update }

/-- One enemy of the shooting loop: only Hard enemies decrement their shoot
timer; at `≤ 0` the timer resets to `randint(60, 140)` and a bomb is
launched from the enemy's rect center toward the player's current rect
center.  `none` propagates the `ValueError` of `Bomb.__init__`. -/
def shootEnemy (o : ℕ → ℚ) (pc : ℤ × ℤ) (acc : Option (List Enemy × List Bomb × ℕ))
    (e : Enemy) : Option (List Enemy × List Bomb × ℕ) := do
  let (es, bs, n) ← acc
  if e.kind = .Hard then
    let t := e.shoot_timer - 1
    if t ≤ 0 then
      let b ← Bomb.make e.c pc
      pure (es ++ [{ e with shoot_timer := drawInt 60 140 (o n) }], bs ++ [b], n + 1)
    else
      pure (es ++ [{ e with shoot_timer := t }], bs, n)
  else
    pure (es ++ [e], bs, n)

/-- Enemy shooting phase (`for e in list(enemies): ...`). -/
def shootPhase (o : ℕ → ℚ) (s : State) : Option State := do
  let (es, bs, n) ← s.enemies.foldl (shootEnemy o s.player.center) (some ([], [], s.rng))
  pure { s with enemies := es, bombs := s.bombs ++ bs, rng := n }

/-- First enemy of the list whose box intersects `r`, split as
`(before, hit, after)` (the group-iteration semantics of
`pygame.sprite.spritecollideany`). -/
def splitFirstHit (r : Rect) : List Enemy → Option (List Enemy × Enemy × List Enemy)
  | [] => none
  | e :: es =>
    if r.collide e.rect then some ([], e, es)
    else
      match splitFirstHit r es with
      | none => none
      | some (pre, hit, post) => some (e :: pre, hit, post)

/-- Projectile × enemy resolution: for each projectile in order, find the
first colliding enemy; deal a flat 1 damage, emit an explosion at the
projectile's rect center of radius `proj.radius * 2`, remove the
projectile; remove the enemy and award 5 score when its hp drops `≤ 0`.
Returns (surviving projectiles, enemies, explosions, score). -/
def resolveProjectiles :
    List Projectile → List Enemy → List Explosion → ℤ →
      List Projectile × List Enemy × List Explosion × ℤ
  | [], es, xs, sc => ([], es, xs, sc)
  | p :: ps, es, xs, sc =>
    match splitFirstHit p.rect es with
    | none =>
      let t := resolveProjectiles ps es xs sc
      (p :: t.1, t.2.1, t.2.2.1, t.2.2.2)
    | some (pre, hit, post) =>
      let hp := hit.hp - 1
      let es' := if hp ≤ 0 then pre ++ post else pre ++ { hit with hp := hp } :: post
      let sc' := if hp ≤ 0 then sc + 5 else sc
      resolveProjectiles ps es' (xs ++ [Explosion.make p.c (p.radius * 2) (projColor p.element)]) sc'

/-- Projectile × enemy phase of the tick. -/
def projEnemyPhase (s : State) : State :=
  let t := resolveProjectiles s.projectiles s.enemies s.explosions s.player.score
  { s with projectiles := t.1, enemies := t.2.1, explosions := t.2.2.1,
           player := { s.player with score := t.2.2.2 } }

/-- First bomb of the list whose box intersects `r`, split as
`(before, hit, after)`. -/
def splitFirstBombHit (r : Rect) : List Bomb → Option (List Bomb × Bomb × List Bomb)
  | [] => none
  | b :: bs =>
    if r.collide b.rect then some ([], b, bs)
    else
      match splitFirstBombHit r bs with
      | none => none
      | some (pre, hit, post) => some (b :: pre, hit, post)

/-- Bomb × player phase: resolve exactly the first colliding bomb (if any):
explosion of radius 36, remove the bomb, decrement lives, stop the loop
when lives drop `≤ 0`. -/
def bombPlayerPhase (s : State) : State :=
  match splitFirstBombHit s.player.rect s.bombs with
  | none => s
  | some (pre, b, post) =>
    let lives := s.player.lives - 1
    { s with bombs := pre ++ post
             explosions := s.explosions ++ [Explosion.make b.c 36 (255, 210, 20)]
             player := { s.player with lives := lives }
             running := if lives ≤ 0 then false else s.running }

/-- Enemy × player phase: the first colliding enemy (if any) is destroyed,
an explosion colored by its kind is emitted, lives decrement, the loop
stops when lives drop `≤ 0`. -/
def enemyPlayerPhase (s : State) : State :=
  match splitFirstHit s.player.rect s.enemies with
  | none => s
  | some (pre, e, post) =>
    let lives := s.player.lives - 1
    { s with enemies := pre ++ post
             explosions := s.explosions ++ [Explosion.make e.c 28 e.color]
             player := { s.player with lives := lives }
             running := if lives ≤ 0 then false else s.running }

/-- One full iteration of the main `while running` loop body (rendering
excluded): events → spawn → updates → enemy shooting → projectile×enemy →
bomb×player → enemy×player. -/
def tick (o : ℕ → ℚ) (i : Input) (s : State) : Option State :=
  (shootPhase o (updatePhase i.keys (spawnPhase o (processEvents i.events s)))).map
    (fun s => enemyPlayerPhase (bombPlayerPhase (projEnemyPhase s)))

/-- Guarded step: the loop body runs only while `running` holds; afterwards
the state is final (the `while` condition). -/
def step (o : ℕ → ℚ) (i : Input) (s : State) : Option State :=
  if s.running then tick o i s else some s

/-- Initial state: player centered at `(WIDTH // 2, HEIGHT - 80)` (rect
top-left `(370, 469)`), 3 lives, score 0, element Air, no entities,
spawn timer 0, running. -/
def init : State :=
  { player := { x := 370, y := 469, lives := 3, score := 0, element := .Air, fire_cooldown := 0 },
    enemies := [], projectiles := [], bombs := [], explosions := [],
    spawn_timer := 0, running := true, rng := 0 }

/-- Iterations of the guarded loop from the initial state, under the
oracle stream `o` and the per-tick input stream `inp`. -/
def run (o : ℕ → ℚ) (inp : ℕ → Input) : ℕ → Option State
  | 0 => some init
  | n + 1 => (run o inp n).bind (step o (inp n))

/-- Oracle draws of a concrete game: tick 1 spawns a Hard enemy in the
player's column (initial shoot timer 40), tick 19 a second Hard enemy there
(shoot timer 81), ticks 37 and 79 harmless Beginner enemies at the far
left; every sway draw is the vertical direction. -/
def traceOracle : ℕ → ℚ := fun n =>
  [(0 : ℚ), 410, 9 / 10, 1 / 2, 0,
   0, 410, 9 / 10, 1 / 2, 41,
   24, 0, 0, 1 / 2, 0,
   0,
   24, 0, 0, 1 / 2, 0].getD n 0

/-- Input of the concrete game: the up key held on every tick, no discrete
events. -/
def traceInput : ℕ → Input := fun _ =>
  { events := [], keys := { left := false, right := false, up := true, down := false } }

/-!  Helper lemmas: how each phase of a tick treats `player.lives`,
`player.score` and `running`. -/

theorem Player.fire_lives (p : Player) : p.fire.2.lives = p.lives := by
  rw [Player.fire]
  split <;> rfl

theorem Player.fire_score (p : Player) : p.fire.2.score = p.score := by
  rw [Player.fire]
  split <;> rfl

theorem processEvent_player (s : State) (e : Ev) :
    (processEvent s e).player.lives = s.player.lives ∧
    (processEvent s e).player.score = s.player.score := by
  cases e <;>
    simp [processEvent, Player.fire_lives, Player.fire_score]

theorem processEvents_player (evs : List Ev) (s : State) :
    (processEvents evs s).player.lives = s.player.lives ∧
    (processEvents evs s).player.score = s.player.score := by
  induction evs generalizing s with
  | nil => exact ⟨rfl, rfl⟩
  | cons e evs ih =>
    have h := processEvent_player s e
    have h' := ih (processEvent s e)
    exact ⟨h'.1.trans h.1, h'.2.trans h.2⟩

theorem spawnPhase_player (o : ℕ → ℚ) (s : State) :
    (spawnPhase o s).player = s.player := by
  rw [spawnPhase]
  split <;> rfl

theorem updatePhase_player (keys : Keys) (s : State) :
    (updatePhase keys s).player.lives = s.player.lives ∧
    (updatePhase keys s).player.score = s.player.score := by
  exact ⟨rfl, rfl⟩

theorem shootPhase_player (o : ℕ → ℚ) (s : State) (s' : State)
    (h : shootPhase o s = some s') : s'.player = s.player := by
  rw [shootPhase] at h
  cases hf : s.enemies.foldl (shootEnemy o s.player.center) (some ([], [], s.rng)) with
  | none => rw [hf] at h; exact Option.noConfusion h
  | some t =>
    obtain ⟨es, bs, n⟩ := t
    rw [hf] at h
    rw [← Option.some_inj.mp h]

theorem projEnemyPhase_lives (s : State) :
    (projEnemyPhase s).player.lives = s.player.lives := rfl

theorem bombPlayerPhase_cases (s : State) :
    ((bombPlayerPhase s).player.lives = s.player.lives ∧
       (bombPlayerPhase s).running = s.running ∧
       (bombPlayerPhase s).player.score = s.player.score) ∨
    ((bombPlayerPhase s).player.lives = s.player.lives - 1 ∧
       (bombPlayerPhase s).running =
         (if s.player.lives - 1 ≤ 0 then false else s.running) ∧
       (bombPlayerPhase s).player.score = s.player.score) := by
  rw [bombPlayerPhase]
  cases h : splitFirstBombHit s.player.rect s.bombs with
  | none => exact Or.inl ⟨rfl, rfl, rfl⟩
  | some t => obtain ⟨pre, b, post⟩ := t; exact Or.inr ⟨rfl, rfl, rfl⟩

theorem enemyPlayerPhase_cases (s : State) :
    ((enemyPlayerPhase s).player.lives = s.player.lives ∧
       (enemyPlayerPhase s).running = s.running ∧
       (enemyPlayerPhase s).player.score = s.player.score) ∨
    ((enemyPlayerPhase s).player.lives = s.player.lives - 1 ∧
       (enemyPlayerPhase s).running =
         (if s.player.lives - 1 ≤ 0 then false else s.running) ∧
       (enemyPlayerPhase s).player.score = s.player.score) := by
  rw [enemyPlayerPhase]
  cases h : splitFirstHit s.player.rect s.enemies with
  | none => exact Or.inl ⟨rfl, rfl, rfl⟩
  | some t => obtain ⟨pre, e, post⟩ := t; exact Or.inr ⟨rfl, rfl, rfl⟩

theorem tick_some (o : ℕ → ℚ) (i : Input) (s s' : State) (h : tick o i s = some s') :
    ∃ s4, shootPhase o (updatePhase i.keys (spawnPhase o (processEvents i.events s))) = some s4 ∧
      s' = enemyPlayerPhase (bombPlayerPhase (projEnemyPhase s4)) := by
  rw [tick] at h
  cases hf : shootPhase o (updatePhase i.keys (spawnPhase o (processEvents i.events s))) with
  | none => rw [hf] at h; exact Option.noConfusion h
  | some s4 =>
    rw [hf] at h
    exact ⟨s4, rfl, (Option.some_inj.mp h).symm⟩

theorem tick_lives (o : ℕ → ℚ) (i : Input) (s s' : State) (h : tick o i s = some s') :
    s'.player.lives ≤ s.player.lives ∧
    s.player.lives - 2 ≤ s'.player.lives ∧
    (s'.running = true → 1 ≤ s'.player.lives ∨ s'.player.lives = s.player.lives) := by
  obtain ⟨s4, hf, hs'⟩ := tick_some o i s s' h
  have h1 : s4.player.lives = s.player.lives := by
    have e1 := (processEvents_player i.events s).1
    have e2 := spawnPhase_player o (processEvents i.events s)
    have e3 := (updatePhase_player i.keys (spawnPhase o (processEvents i.events s))).1
    have e4 := shootPhase_player o _ s4 hf
    rw [e4, e3, e2, e1]
  have h5 : (projEnemyPhase s4).player.lives = s.player.lives := by
    rw [projEnemyPhase_lives, h1]
  have hb := bombPlayerPhase_cases (projEnemyPhase s4)
  have he := enemyPlayerPhase_cases (bombPlayerPhase (projEnemyPhase s4))
  subst hs'
  rcases hb with ⟨hb1, hb2, _⟩ | ⟨hb1, hb2, _⟩ <;>
    rcases he with ⟨he1, he2, _⟩ | ⟨he1, he2, _⟩
  · rw [he1, hb1, h5]
    exact ⟨le_refl _, by omega, fun _ => Or.inr rfl⟩
  · rw [he1, he2, hb1, h5]
    refine ⟨by omega, by omega, fun hr => ?_⟩
    by_cases hc : s.player.lives - 1 ≤ 0
    · rw [if_pos hc] at hr; exact absurd hr Bool.false_ne_true
    · left; omega
  · rw [he1, he2, hb1, hb2, h5]
    refine ⟨by omega, by omega, fun hr => ?_⟩
    by_cases hc : s.player.lives - 1 ≤ 0
    · rw [if_pos hc] at hr; exact absurd hr Bool.false_ne_true
    · left; omega
  · rw [he1, he2, hb1, hb2, h5]
    refine ⟨by omega, by omega, fun hr => ?_⟩
    by_cases hc : s.player.lives - 1 - 1 ≤ 0
    · rw [if_pos hc] at hr; exact absurd hr Bool.false_ne_true
    · left; omega

theorem run_lives_inv (o : ℕ → ℚ) (inp : ℕ → Input) (n : ℕ) (s : State)
    (h : run o inp n = some s) :
    -1 ≤ s.player.lives ∧ (s.running = true → 1 ≤ s.player.lives) := by
  induction n generalizing s with
  | zero =>
    rw [run, Option.some_inj] at h
    subst h
    exact ⟨by norm_num [init], fun _ => by norm_num [init]⟩
  | succ n ih =>
    rw [run] at h
    cases h0 : run o inp n with
    | none => rw [h0] at h; exact Option.noConfusion h
    | some s0 =>
      rw [h0] at h
      replace h : step o (inp n) s0 = some s := h
      obtain ⟨h1, h2⟩ := ih s0 h0
      rw [step] at h
      by_cases hr : s0.running
      · rw [if_pos hr] at h
        have h3 := h2 hr
        obtain ⟨ha, hb, hc⟩ := tick_lives o (inp n) s0 s h
        refine ⟨by omega, fun hrun => ?_⟩
        rcases hc hrun with h4 | h4 <;> omega
      · rw [if_neg hr, Option.some_inj] at h
        subst h
        exact ⟨h1, h2⟩

/-- C1, amended.  Across every tick of the guarded loop, `player.lives` is
non-increasing; once `running` is false the loop leaves the state unchanged
(terminal); in every reachable state `lives ≥ -1` and `lives ≥ 1` while the
game is still running.  The original bound `lives ≥ 0` fails: on a tick in
which a bomb hit and an enemy collision coincide with one life left, the
loop decrements twice and ends the game with `lives = -1`
(`lives_reach_minus_one`). -/
theorem lives_invariant_amended :
    (∀ (o : ℕ → ℚ) (i : Input) (s s' : State),
        step o i s = some s' → s'.player.lives ≤ s.player.lives)
    ∧ (∀ (o : ℕ → ℚ) (i : Input) (s : State), s.running = false → step o i s = some s)
    ∧ (∀ (o : ℕ → ℚ) (inp : ℕ → Input) (n : ℕ) (s : State),
        run o inp n = some s →
          -1 ≤ s.player.lives ∧ (s.running = true → 1 ≤ s.player.lives)) := by
  refine ⟨fun o i s s' h => ?_, fun o i s h => ?_, run_lives_inv⟩
  · rw [step] at h
    by_cases hr : s.running
    · rw [if_pos hr] at h
      exact (tick_lives o i s s' h).1
    · rw [if_neg hr, Option.some_inj] at h
      subst h; exact le_refl _
  · rw [step, if_neg (by rw [h]; exact Bool.false_ne_true)]

set_option maxRecDepth 100000 in
/-- C1, counterexample to the claim as stated: a concrete 101-tick game
(both Hard enemies spawned in the player's column; the player holding the
up key) in which the final tick resolves a bomb hit at one life and then
the enemy collision block still runs, leaving `player.lives = -1 < 0` in
the reachable terminal state. -/
theorem lives_reach_minus_one :
    (run traceOracle traceInput 101).map (fun s => s.player.lives) = some (-1) := by
  with_unfolding_all rfl

/-- C1 witness: the amended theorem applied to the concrete initial state
and the first tick of the concrete game. -/
theorem lives_invariant_amended_witness :
    ((run traceOracle traceInput 1).getD init).player.lives ≤ init.player.lives
    ∧ (-1 ≤ init.player.lives ∧ (init.running = true → 1 ≤ init.player.lives)) :=
  ⟨lives_invariant_amended.1 traceOracle (traceInput 0) init _ (by with_unfolding_all rfl),
   lives_invariant_amended.2.2 traceOracle traceInput 0 init rfl⟩

/-!  C2: fire-rate gating. -/

theorem Player.update_cooldown (keys : Keys) (p : Player) :
    (Player.update keys p).fire_cooldown =
      if p.fire_cooldown > 0 then p.fire_cooldown - 1 else p.fire_cooldown := rfl

theorem iterate_update_cooldown (keys : Keys) (k : ℕ) (p : Player)
    (h : (k : ℤ) ≤ p.fire_cooldown) :
    ((Player.update keys)^[k] p).fire_cooldown = p.fire_cooldown - k := by
  induction k generalizing p with
  | zero => simp
  | succ k ih =>
    rw [Function.iterate_succ_apply]
    have hpos : p.fire_cooldown > 0 := by
      have : ((k : ℤ) + 1) ≤ p.fire_cooldown := by push_cast at h; omega
      omega
    have hc : (Player.update keys p).fire_cooldown = p.fire_cooldown - 1 := by
      rw [Player.update_cooldown, if_pos hpos]
    rw [ih (Player.update keys p) (by rw [hc]; push_cast at h ⊢; omega), hc]
    push_cast
    ring

theorem fire_nonempty (p : Player) (h : ¬p.fire_cooldown > 0) :
    p.fire.1 ≠ [] ∧ p.fire.2.fire_cooldown = 14 := by
  rw [Player.fire, if_neg h]
  cases hel : p.element <;> simp

/-- C2.  `fire()` is rejected (empty burst, state unchanged) whenever
`fireCooldown > 0`; otherwise it resets the cooldown to 14 and returns a
non-empty burst.  `update` decrements the cooldown once per tick while it
is positive, so a second `fire()` within the next 13 ticks is rejected, the
cooldown reaches 0 after 14 updates, and `fire()` then succeeds again. -/
theorem fire_cooldown_gating :
    (∀ p : Player, p.fire_cooldown > 0 → p.fire = ([], p))
    ∧ (∀ p : Player, p.fire_cooldown ≤ 0 → p.fire.1 ≠ [] ∧ p.fire.2.fire_cooldown = 14)
    ∧ (∀ (keys : Keys) (p : Player),
        (Player.update keys p).fire_cooldown =
          if p.fire_cooldown > 0 then p.fire_cooldown - 1 else p.fire_cooldown)
    ∧ (∀ (keys : Keys) (p : Player) (k : ℕ), p.fire_cooldown = 0 → 1 ≤ k → k ≤ 13 →
        ((Player.update keys)^[k] p.fire.2).fire_cooldown = 14 - k
        ∧ ((Player.update keys)^[k] p.fire.2).fire.1 = [])
    ∧ (∀ (keys : Keys) (p : Player), p.fire_cooldown = 0 →
        ((Player.update keys)^[14] p.fire.2).fire_cooldown = 0
        ∧ ((Player.update keys)^[14] p.fire.2).fire.1 ≠ []) := by
  refine ⟨fun p h => by rw [Player.fire, if_pos h], fun p h => fire_nonempty p (by omega),
    Player.update_cooldown, fun keys p k h0 hk1 hk13 => ?_, fun keys p h0 => ?_⟩
  · have h14 : p.fire.2.fire_cooldown = 14 := (fire_nonempty p (by omega)).2
    have hit : ((Player.update keys)^[k] p.fire.2).fire_cooldown = 14 - k := by
      rw [iterate_update_cooldown keys k p.fire.2 (by rw [h14]; exact_mod_cast by omega), h14]
    refine ⟨hit, ?_⟩
    have hpos : ((Player.update keys)^[k] p.fire.2).fire_cooldown > 0 := by
      rw [hit]; omega
    rw [Player.fire, if_pos hpos]
  · have h14 : p.fire.2.fire_cooldown = 14 := (fire_nonempty p (by omega)).2
    have hit : ((Player.update keys)^[14] p.fire.2).fire_cooldown = 14 - (14 : ℕ) := by
      rw [iterate_update_cooldown keys 14 p.fire.2 (by rw [h14]; norm_num), h14]
    have hz : ((Player.update keys)^[14] p.fire.2).fire_cooldown = 0 := by
      rw [hit]; norm_num
    exact ⟨hz, (fire_nonempty _ (by omega)).1⟩

/-- C2 witness: the gating theorem applied to the concrete initial player
(cooldown 0): firing again 5 ticks after a shot is rejected, and firing
again 14 ticks after a shot succeeds. -/
theorem fire_cooldown_gating_witness :
    (((Player.update (traceInput 0).keys)^[5] init.player.fire.2).fire.1 = []
      ∧ ((Player.update (traceInput 0).keys)^[14] init.player.fire.2).fire_cooldown = 0
      ∧ ((Player.update (traceInput 0).keys)^[14] init.player.fire.2).fire.1 ≠ []) :=
  ⟨(fire_cooldown_gating.2.2.2.1 (traceInput 0).keys init.player 5 rfl (by norm_num)
      (by norm_num)).2,
   (fire_cooldown_gating.2.2.2.2 (traceInput 0).keys init.player rfl).1,
   (fire_cooldown_gating.2.2.2.2 (traceInput 0).keys init.player rfl).2⟩

/-!  C3 / C7: the exact-real layer for the two constructors whose source
values are irrational (`math.sin` in `Player.fire`, the square root inside
`Vector2.normalize` in `Bomb.__init__`). -/

/-- Exact-real velocities of the burst produced by `Player.fire` per
element (the Water branch iterates `a ∈ (-0.15, 0, 0.15)` with
`vx = sin(a) * 6`, `vy = -6`). -/
noncomputable def fireShotsVelR : Element → List (ℝ × ℝ)
  | .Air => [(0, -8)]
  | .Water =>
      [(Real.sin (-0.15) * 6, -6), (Real.sin 0 * 6, -6), (Real.sin 0.15 * 6, -6)]
  | .Fire => [(0, -12)]

/-- Exact-real model of the `Player.fire` gate around the burst. -/
noncomputable def fireR (cooldown : ℤ) (e : Element) : List (ℝ × ℝ) × ℤ :=
  if cooldown > 0 then ([], cooldown) else (fireShotsVelR e, 14)

/-- Euclidean magnitude of a velocity vector. -/
noncomputable def speedR (v : ℝ × ℝ) : ℝ := Real.sqrt (v.1 ^ 2 + v.2 ^ 2)

/-- Exact-real velocity assigned by `Bomb.__init__`:
`(target - pos).normalize() * 4.5`. -/
noncomputable def bombVelR (pos target : ℝ × ℝ) : ℝ × ℝ :=
  ((target.1 - pos.1) / Real.sqrt ((target.1 - pos.1) ^ 2 + (target.2 - pos.2) ^ 2) * 4.5,
   (target.2 - pos.2) / Real.sqrt ((target.1 - pos.1) ^ 2 + (target.2 - pos.2) ^ 2) * 4.5)

theorem sin015_pos : 0 < Real.sin 0.15 :=
  Real.sin_pos_of_pos_of_lt_pi (by norm_num) (by linarith [Real.pi_gt_three])

theorem sqrt36 : Real.sqrt 36 = 6 := by
  rw [show (36 : ℝ) = 6 ^ 2 by norm_num, Real.sqrt_sq (by norm_num : (0:ℝ) ≤ 6)]

theorem speed_water_mid : speedR (Real.sin 0 * 6, -6) = 6 := by
  rw [speedR, Real.sin_zero]
  norm_num [sqrt36]

theorem speed_water_outer_gt : 6 < speedR (Real.sin 0.15 * 6, -6) := by
  have h2 : 0 < (Real.sin 0.15 * 6) ^ 2 :=
    sq_pos_iff.mpr (ne_of_gt (mul_pos sin015_pos (by norm_num)))
  have key : Real.sqrt 36 < Real.sqrt ((Real.sin 0.15 * 6) ^ 2 + (-6 : ℝ) ^ 2) := by
    apply Real.sqrt_lt_sqrt (by norm_num)
    nlinarith
  show (6 : ℝ) < Real.sqrt ((Real.sin 0.15 * 6) ^ 2 + (-6 : ℝ) ^ 2)
  exact lt_of_le_of_lt (le_of_eq sqrt36.symm) key

/-- C3, counterexample to the claim as stated: the Water burst is the
claimed velocity triple, but the three shots do not share one speed
magnitude — the outer shot `(sin(0.15)*6, -6)` is strictly faster than the
middle `(0, -6)` one (the source keeps `vy = -6` fixed instead of rotating
the vector). -/
theorem water_speed_not_uniform :
    speedR ((fireShotsVelR .Water).getD 2 (0, 0))
      ≠ speedR ((fireShotsVelR .Water).getD 1 (0, 0)) := by
  show speedR (Real.sin 0.15 * 6, -6) ≠ speedR (Real.sin 0 * 6, -6)
  rw [speed_water_mid]
  exact ne_of_gt speed_water_outer_gt

/-- C3, amended.  With cooldown 0 and element Water, `fire()` produces
exactly 3 projectiles with velocities `(sin(-0.15)*6, -6)`, `(0, -6)` and
`(sin(0.15)*6, -6)`; the two outer shots share one speed magnitude, which
is strictly greater than the middle shot's magnitude 6. -/
theorem water_spread_amended :
    fireR 0 .Water = ([(Real.sin (-0.15) * 6, -6), (0, -6), (Real.sin 0.15 * 6, -6)], 14)
    ∧ (fireShotsVelR .Water).length = 3
    ∧ speedR ((fireShotsVelR .Water).getD 0 (0, 0))
        = speedR ((fireShotsVelR .Water).getD 2 (0, 0))
    ∧ speedR ((fireShotsVelR .Water).getD 1 (0, 0))
        < speedR ((fireShotsVelR .Water).getD 2 (0, 0)) := by
  refine ⟨?_, rfl, ?_, ?_⟩
  · rw [fireR, if_neg (by norm_num)]
    simp [fireShotsVelR]
  · show speedR (Real.sin (-0.15) * 6, -6) = speedR (Real.sin 0.15 * 6, -6)
    rw [speedR, speedR, Real.sin_neg]
    norm_num
  · show speedR (Real.sin 0 * 6, -6) < speedR (Real.sin 0.15 * 6, -6)
    rw [speed_water_mid]
    exact speed_water_outer_gt

theorem bombVelR_spec (p t : ℝ × ℝ) (h : t ≠ p) :
    speedR (bombVelR p t) = 4.5 ∧
      ∃ c : ℝ, 0 < c ∧ bombVelR p t = (c * (t.1 - p.1), c * (t.2 - p.2)) := by
  have h' : ¬(t.1 - p.1 = 0 ∧ t.2 - p.2 = 0) := by
    rintro ⟨h1, h2⟩
    exact h (Prod.ext (by linarith) (by linarith))
  have hd : 0 < (t.1 - p.1) ^ 2 + (t.2 - p.2) ^ 2 := by
    rcases not_and_or.mp h' with h1 | h1
    · exact add_pos_of_pos_of_nonneg (sq_pos_iff.mpr h1) (sq_nonneg _)
    · exact add_pos_of_nonneg_of_pos (sq_nonneg _) (sq_pos_iff.mpr h1)
  have hn : 0 < Real.sqrt ((t.1 - p.1) ^ 2 + (t.2 - p.2) ^ 2) := Real.sqrt_pos.mpr hd
  have hn2 : Real.sqrt ((t.1 - p.1) ^ 2 + (t.2 - p.2) ^ 2) ^ 2
      = (t.1 - p.1) ^ 2 + (t.2 - p.2) ^ 2 := Real.sq_sqrt hd.le
  constructor
  · rw [speedR, bombVelR]
    have hsum :
        ((t.1 - p.1) / Real.sqrt ((t.1 - p.1) ^ 2 + (t.2 - p.2) ^ 2) * 4.5) ^ 2 +
          ((t.2 - p.2) / Real.sqrt ((t.1 - p.1) ^ 2 + (t.2 - p.2) ^ 2) * 4.5) ^ 2
        = (4.5 : ℝ) ^ 2 := by
      field_simp
      ring
    rw [hsum, Real.sqrt_sq (by norm_num : (0:ℝ) ≤ 4.5)]
  · refine ⟨4.5 / Real.sqrt ((t.1 - p.1) ^ 2 + (t.2 - p.2) ^ 2), by positivity, ?_⟩
    rw [bombVelR, Prod.mk.injEq]
    exact ⟨by ring, by ring⟩

theorem Bomb.update_vel (b b' : Bomb) (h : Bomb.update b = some b') : b'.vel = b.vel := by
  rw [Bomb.update] at h
  split at h
  · exact Option.noConfusion h
  · rw [← Option.some_inj.mp h]

theorem shootEnemy_eq (o : ℕ → ℚ) (pc : ℤ × ℤ) (es : List Enemy) (bs : List Bomb)
    (n : ℕ) (e : Enemy) :
    shootEnemy o pc (some (es, bs, n)) e =
      if e.kind = .Hard then
        (if e.shoot_timer - 1 ≤ 0 then
          (Bomb.make e.c pc).bind (fun b =>
            some (es ++ [{ e with shoot_timer := drawInt 60 140 (o n) }], bs ++ [b], n + 1))
        else some (es ++ [{ e with shoot_timer := e.shoot_timer - 1 }], bs, n))
      else some (es ++ [e], bs, n) := rfl

/-- C7.  A bomb's velocity is fixed at creation: it is a strictly positive
multiple of the vector from the spawning enemy toward the player at that
moment, with magnitude exactly 4.5; `Bomb.update` never changes the
velocity; and bombs are created only by Hard enemies whose shoot timer has
reached `≤ 0`, which then resets to a value in `[60, 140]`. -/
theorem bomb_ballistic :
    (∀ p t : ℝ × ℝ, t ≠ p → speedR (bombVelR p t) = 4.5
        ∧ ∃ c : ℝ, 0 < c ∧ bombVelR p t = (c * (t.1 - p.1), c * (t.2 - p.2)))
    ∧ (∀ b b' : Bomb, Bomb.update b = some b' → b'.vel = b.vel)
    ∧ (∀ (o : ℕ → ℚ) (pc : ℤ × ℤ) (es : List Enemy) (bs : List Bomb) (n : ℕ) (e : Enemy),
        (e.kind ≠ .Hard → shootEnemy o pc (some (es, bs, n)) e = some (es ++ [e], bs, n))
        ∧ (e.kind = .Hard → 0 < e.shoot_timer - 1 →
            shootEnemy o pc (some (es, bs, n)) e =
              some (es ++ [{ e with shoot_timer := e.shoot_timer - 1 }], bs, n))
        ∧ (e.kind = .Hard → e.shoot_timer - 1 ≤ 0 →
            shootEnemy o pc (some (es, bs, n)) e =
              (Bomb.make e.c pc).bind (fun b =>
                some (es ++ [{ e with shoot_timer := drawInt 60 140 (o n) }], bs ++ [b], n + 1))
            ∧ 60 ≤ drawInt 60 140 (o n) ∧ drawInt 60 140 (o n) ≤ 140)) := by
  refine ⟨bombVelR_spec, Bomb.update_vel, fun o pc es bs n e => ⟨fun hk => ?_,
    fun hk ht => ?_, fun hk ht => ⟨?_, ?_, ?_⟩⟩⟩
  · rw [shootEnemy_eq, if_neg hk]
  · rw [shootEnemy_eq, if_pos hk, if_neg (by omega)]
  · rw [shootEnemy_eq, if_pos hk, if_pos ht]
  · have h1 : (0:ℤ) ≤ ⌊o n⌋ % 81 := Int.emod_nonneg _ (by norm_num)
    rw [drawInt]; omega
  · have h1 : ⌊o n⌋ % 81 < 81 := Int.emod_lt_of_pos _ (by norm_num)
    rw [drawInt]
    have h2 : (140 : ℤ) - 60 + 1 = 81 := by norm_num
    rw [h2]
    have h0 : (0:ℤ) ≤ ⌊o n⌋ % 81 := Int.emod_nonneg _ (by norm_num)
    omega

/-- Default bomb used only to extract values from `Option Bomb` in the C7
witness. -/
def bombDflt : Bomb := { pos := (0, 0), vel := (0, 0), c := (0, 0) }

/-- Concrete bomb of the counterexample trace (fired at tick 40 from the
first Hard enemy straight down at the player). -/
def bombW : Bomb := (Bomb.make (450, 16) (450, 360)).getD bombDflt

/-- Concrete Beginner enemy (never fires). -/
def enemyW : Enemy := Enemy.make (40, -20) .Beginner 0 40

/-- C7 witness: the theorem applied at a concrete vertical shot, a concrete
bomb update, and a concrete non-Hard enemy in the shooting loop. -/
theorem bomb_ballistic_witness :
    speedR (bombVelR ((0 : ℝ), 0) ((0 : ℝ), 72)) = 4.5
    ∧ ((Bomb.update bombW).getD bombDflt).vel = bombW.vel
    ∧ shootEnemy traceOracle (450, 360) (some ([], [], 0)) enemyW
        = some (([] : List Enemy) ++ [enemyW], [], 0) :=
  ⟨(bomb_ballistic.1 ((0 : ℝ), 0) ((0 : ℝ), 72) (by norm_num [Prod.ext_iff])).1,
   bomb_ballistic.2.1 bombW ((Bomb.update bombW).getD bombDflt) (by with_unfolding_all rfl),
   (bomb_ballistic.2.2 traceOracle (450, 360) [] [] 0 enemyW).1 (by decide)⟩

/-!  C4 / C5: the collision-resolution phases. -/

theorem splitFirstHit_spec (r : Rect) :
    ∀ (es pre : List Enemy) (e : Enemy) (post : List Enemy),
      splitFirstHit r es = some (pre, e, post) →
        es = pre ++ e :: post ∧ (∀ e' ∈ pre, r.collide e'.rect = false)
          ∧ r.collide e.rect = true := by
  intro es
  induction es with
  | nil => intro pre e post h; exact Option.noConfusion h
  | cons a as ih =>
    intro pre e post h
    simp only [splitFirstHit] at h
    by_cases hc : r.collide a.rect = true
    · rw [if_pos hc] at h
      obtain ⟨h3, h4, h5⟩ : ([] : List Enemy) = pre ∧ a = e ∧ as = post := by
        simpa [Prod.ext_iff] using Option.some_inj.mp h
      subst h3; subst h4; subst h5
      exact ⟨rfl, by simp, hc⟩
    · rw [if_neg hc] at h
      cases hs : splitFirstHit r as with
      | none => rw [hs] at h; exact Option.noConfusion h
      | some t =>
        obtain ⟨pre', e', post'⟩ := t
        rw [hs] at h
        obtain ⟨h3, h4, h5⟩ : a :: pre' = pre ∧ e' = e ∧ post' = post := by
          simpa [Prod.ext_iff] using Option.some_inj.mp h
        subst h3; subst h4; subst h5
        obtain ⟨ih1, ih2, ih3⟩ := ih pre' e' post' hs
        rw [Bool.not_eq_true] at hc
        refine ⟨by rw [ih1, List.cons_append], ?_, ih3⟩
        intro x hx
        rcases List.mem_cons.mp hx with hx | hx
        · rw [hx]; exact hc
        · exact ih2 x hx

theorem resolveProjectiles_miss (p : Projectile) (ps : List Projectile) (es : List Enemy)
    (xs : List Explosion) (sc : ℤ) (h : splitFirstHit p.rect es = none) :
    resolveProjectiles (p :: ps) es xs sc =
      ((p :: (resolveProjectiles ps es xs sc).1), (resolveProjectiles ps es xs sc).2) := by
  simp only [resolveProjectiles, h]

theorem resolveProjectiles_hit (p : Projectile) (ps : List Projectile) (es : List Enemy)
    (xs : List Explosion) (sc : ℤ) (pre : List Enemy) (e : Enemy) (post : List Enemy)
    (h : splitFirstHit p.rect es = some (pre, e, post)) :
    resolveProjectiles (p :: ps) es xs sc =
      resolveProjectiles ps
        (if e.hp - 1 ≤ 0 then pre ++ post else pre ++ { e with hp := e.hp - 1 } :: post)
        (xs ++ [Explosion.make p.c (p.radius * 2) (projColor p.element)])
        (if e.hp - 1 ≤ 0 then sc + 5 else sc) := by
  simp only [resolveProjectiles, h]

/-- C4.  For every projectile in order, the resolution finds the first
enemy (in group-iteration order) whose box intersects it; a hit deals
exactly 1 damage independently of the projectile's element, emits one
explosion at the projectile's rect center with radius `proj.radius * 2`,
removes the projectile from the survivors (so a projectile scores at most
one hit), and removes the enemy with exactly 5 score points iff its hp
dropped `≤ 0`; a projectile without a hit survives unchanged. -/
theorem projectile_enemy_resolution :
    (∀ (r : Rect) (es pre : List Enemy) (e : Enemy) (post : List Enemy),
        splitFirstHit r es = some (pre, e, post) →
          es = pre ++ e :: post ∧ (∀ e' ∈ pre, r.collide e'.rect = false)
            ∧ r.collide e.rect = true)
    ∧ (∀ (p : Projectile) (ps : List Projectile) (es : List Enemy) (xs : List Explosion)
        (sc : ℤ), splitFirstHit p.rect es = none →
          resolveProjectiles (p :: ps) es xs sc =
            ((p :: (resolveProjectiles ps es xs sc).1), (resolveProjectiles ps es xs sc).2))
    ∧ (∀ (p : Projectile) (ps : List Projectile) (es : List Enemy) (xs : List Explosion)
        (sc : ℤ) (pre : List Enemy) (e : Enemy) (post : List Enemy),
        splitFirstHit p.rect es = some (pre, e, post) →
          resolveProjectiles (p :: ps) es xs sc =
            resolveProjectiles ps
              (if e.hp - 1 ≤ 0 then pre ++ post else pre ++ { e with hp := e.hp - 1 } :: post)
              (xs ++ [Explosion.make p.c (p.radius * 2) (projColor p.element)])
              (if e.hp - 1 ≤ 0 then sc + 5 else sc)) :=
  ⟨splitFirstHit_spec, resolveProjectiles_miss, resolveProjectiles_hit⟩

/-- Concrete Air projectile directly overlapping `enemyHitW`. -/
def projW : Projectile := Projectile.make (450, 400) (0, -8) .Air

/-- Concrete Beginner enemy (hp 1) at the projectile's position. -/
def enemyHitW : Enemy := Enemy.make (450, 400) .Beginner 0 40

/-- C4 witness: one Air projectile overlapping one Beginner enemy resolves
to one damage application (killing it, score +5) and one explosion. -/
theorem projectile_enemy_resolution_witness :
    resolveProjectiles [projW] [enemyHitW] [] 0 =
      resolveProjectiles []
        (if enemyHitW.hp - 1 ≤ 0 then [] ++ []
         else [] ++ { enemyHitW with hp := enemyHitW.hp - 1 } :: [])
        ([] ++ [Explosion.make projW.c (projW.radius * 2) (projColor projW.element)])
        (if enemyHitW.hp - 1 ≤ 0 then 0 + 5 else 0) :=
  projectile_enemy_resolution.2.2 projW [] [enemyHitW] [] 0 [] enemyHitW []
    (by with_unfolding_all rfl)

theorem splitFirstBombHit_spec (r : Rect) :
    ∀ (bs pre : List Bomb) (b : Bomb) (post : List Bomb),
      splitFirstBombHit r bs = some (pre, b, post) →
        bs = pre ++ b :: post ∧ (∀ b' ∈ pre, r.collide b'.rect = false)
          ∧ r.collide b.rect = true := by
  intro bs
  induction bs with
  | nil => intro pre b post h; exact Option.noConfusion h
  | cons a as ih =>
    intro pre b post h
    simp only [splitFirstBombHit] at h
    by_cases hc : r.collide a.rect = true
    · rw [if_pos hc] at h
      obtain ⟨h3, h4, h5⟩ : ([] : List Bomb) = pre ∧ a = b ∧ as = post := by
        simpa [Prod.ext_iff] using Option.some_inj.mp h
      subst h3; subst h4; subst h5
      exact ⟨rfl, by simp, hc⟩
    · rw [if_neg hc] at h
      cases hs : splitFirstBombHit r as with
      | none => rw [hs] at h; exact Option.noConfusion h
      | some t =>
        obtain ⟨pre', b', post'⟩ := t
        rw [hs] at h
        obtain ⟨h3, h4, h5⟩ : a :: pre' = pre ∧ b' = b ∧ post' = post := by
          simpa [Prod.ext_iff] using Option.some_inj.mp h
        subst h3; subst h4; subst h5
        obtain ⟨ih1, ih2, ih3⟩ := ih pre' b' post' hs
        rw [Bool.not_eq_true] at hc
        refine ⟨by rw [ih1, List.cons_append], ?_, ih3⟩
        intro x hx
        rcases List.mem_cons.mp hx with hx | hx
        · rw [hx]; exact hc
        · exact ih2 x hx

theorem bombPlayerPhase_none (s : State)
    (h : splitFirstBombHit s.player.rect s.bombs = none) : bombPlayerPhase s = s := by
  simp only [bombPlayerPhase, h]

theorem bombPlayerPhase_hit (s : State) (pre : List Bomb) (b : Bomb) (post : List Bomb)
    (h : splitFirstBombHit s.player.rect s.bombs = some (pre, b, post)) :
    (bombPlayerPhase s).bombs = pre ++ post
    ∧ (bombPlayerPhase s).player.lives = s.player.lives - 1
    ∧ (bombPlayerPhase s).explosions = s.explosions ++ [Explosion.make b.c 36 (255, 210, 20)]
    ∧ (bombPlayerPhase s).enemies = s.enemies
    ∧ (bombPlayerPhase s).player.score = s.player.score := by
  simp [bombPlayerPhase, h]

/-- C5.  If at least one bomb's box intersects the player's box, exactly
the first such bomb (in group-iteration order) is resolved this tick: it
alone is removed, one explosion is emitted, and lives decrement by exactly
1 — even when further bombs (in `post`) also overlap the player. -/
theorem bomb_player_resolution :
    (∀ (r : Rect) (bs pre : List Bomb) (b : Bomb) (post : List Bomb),
        splitFirstBombHit r bs = some (pre, b, post) →
          bs = pre ++ b :: post ∧ (∀ b' ∈ pre, r.collide b'.rect = false)
            ∧ r.collide b.rect = true)
    ∧ (∀ s : State, splitFirstBombHit s.player.rect s.bombs = none → bombPlayerPhase s = s)
    ∧ (∀ (s : State) (pre : List Bomb) (b : Bomb) (post : List Bomb),
        splitFirstBombHit s.player.rect s.bombs = some (pre, b, post) →
          (bombPlayerPhase s).bombs = pre ++ post
          ∧ (bombPlayerPhase s).player.lives = s.player.lives - 1
          ∧ (bombPlayerPhase s).explosions
              = s.explosions ++ [Explosion.make b.c 36 (255, 210, 20)]
          ∧ (bombPlayerPhase s).enemies = s.enemies
          ∧ (bombPlayerPhase s).player.score = s.player.score) :=
  ⟨splitFirstBombHit_spec, bombPlayerPhase_none, bombPlayerPhase_hit⟩

/-- First concrete bomb overlapping the initial player. -/
def bombHit1 : Bomb := (Bomb.make (450, 520) (450, 16)).getD bombDflt

/-- Second concrete bomb overlapping the initial player simultaneously. -/
def bombHit2 : Bomb := (Bomb.make (451, 520) (451, 16)).getD bombDflt

/-- State with two bombs both overlapping the player. -/
def stateTwoBombs : State := { init with bombs := [bombHit1, bombHit2] }

/-- C5 witness: with two bombs overlapping the player simultaneously, only
the first is removed, lives drop by exactly 1, one explosion is emitted,
and the second bomb stays for later ticks. -/
theorem bomb_player_resolution_witness :
    (bombPlayerPhase stateTwoBombs).bombs = [] ++ [bombHit2]
    ∧ (bombPlayerPhase stateTwoBombs).player.lives = stateTwoBombs.player.lives - 1
    ∧ (bombPlayerPhase stateTwoBombs).explosions
        = stateTwoBombs.explosions ++ [Explosion.make bombHit1.c 36 (255, 210, 20)]
    ∧ (bombPlayerPhase stateTwoBombs).enemies = stateTwoBombs.enemies
    ∧ (bombPlayerPhase stateTwoBombs).player.score = stateTwoBombs.player.score :=
  bomb_player_resolution.2.2 stateTwoBombs [] bombHit1 [bombHit2]
    (by with_unfolding_all rfl)

/-!  C6: the spawner. -/

theorem drawInt_range (a b : ℤ) (q : ℚ) (hab : a ≤ b) :
    a ≤ drawInt a b q ∧ drawInt a b q ≤ b := by
  have h1 : (0 : ℤ) < b - a + 1 := by omega
  have h2 : (0 : ℤ) ≤ ⌊q⌋ % (b - a + 1) := Int.emod_nonneg _ (by omega)
  have h3 : ⌊q⌋ % (b - a + 1) < b - a + 1 := Int.emod_lt_of_pos _ h1
  rw [drawInt]
  omega

theorem drawFrac_range (q : ℚ) : 0 ≤ drawFrac q ∧ drawFrac q < 1 := by
  rw [drawFrac]
  constructor
  · linarith [Int.floor_le q]
  · linarith [Int.lt_floor_add_one q]

theorem spawnPhase_no (o : ℕ → ℚ) (s : State) (h : 0 < s.spawn_timer - 1) :
    spawnPhase o s = { s with spawn_timer := s.spawn_timer - 1 } := by
  simp only [spawnPhase]
  rw [if_neg (by omega)]

theorem spawnPhase_spawn (o : ℕ → ℚ) (s : State) (h : s.spawn_timer - 1 ≤ 0) :
    spawnPhase o s = { s with
      spawn_timer := drawInt 18 42 (o s.rng)
      enemies := s.enemies ++
        [spawn_enemy (o (s.rng + 1)) (o (s.rng + 2)) (o (s.rng + 3)) (o (s.rng + 4))]
      rng := s.rng + 5 } := by
  simp only [spawnPhase]
  rw [if_pos h]

/-- C6.  When the decremented spawn countdown reaches `≤ 0` it is reset to
a `randint(18, 42)` draw and exactly one enemy is appended (otherwise only
the countdown changes); the new enemy sits at height −20 with a random
column in `[40, 860]`; its kind comes from cumulative thresholds 0.6 / 0.9
over a unit-interval draw (Beginner / Mid / Hard with weights 0.6, 0.3,
0.1), and the kind fixes hp 1/2/3 and speed 1.0/1.2/0.9. -/
theorem spawner_behavior :
    (∀ (o : ℕ → ℚ) (s : State), 0 < s.spawn_timer - 1 →
        spawnPhase o s = { s with spawn_timer := s.spawn_timer - 1 })
    ∧ (∀ (o : ℕ → ℚ) (s : State), s.spawn_timer - 1 ≤ 0 →
        spawnPhase o s = { s with
          spawn_timer := drawInt 18 42 (o s.rng)
          enemies := s.enemies ++
            [spawn_enemy (o (s.rng + 1)) (o (s.rng + 2)) (o (s.rng + 3)) (o (s.rng + 4))]
          rng := s.rng + 5 }
        ∧ 18 ≤ drawInt 18 42 (o s.rng) ∧ drawInt 18 42 (o s.rng) ≤ 42)
    ∧ (∀ qx qr qu qt : ℚ,
        (spawn_enemy qx qr qu qt).pos = (((drawInt 40 860 qx : ℤ) : ℚ), ((-20 : ℤ) : ℚ))
        ∧ 40 ≤ drawInt 40 860 qx ∧ drawInt 40 860 qx ≤ 860
        ∧ (spawn_enemy qx qr qu qt).kind =
            (if drawFrac qr < 6 / 10 then Kind.Beginner
             else if drawFrac qr < 9 / 10 then Kind.Mid else Kind.Hard)
        ∧ 0 ≤ drawFrac qr ∧ drawFrac qr < 1
        ∧ (spawn_enemy qx qr qu qt).hp = kindHp (spawn_enemy qx qr qu qt).kind
        ∧ (spawn_enemy qx qr qu qt).speed = kindSpeed (spawn_enemy qx qr qu qt).kind)
    ∧ (kindHp .Beginner = 1 ∧ kindHp .Mid = 2 ∧ kindHp .Hard = 3
        ∧ kindSpeed .Beginner = 1 ∧ kindSpeed .Mid = 6 / 5 ∧ kindSpeed .Hard = 9 / 10) := by
  refine ⟨spawnPhase_no, fun o s h => ⟨spawnPhase_spawn o s h, drawInt_range 18 42 _ (by norm_num)⟩,
    fun qx qr qu qt => ⟨rfl, ?_, ?_, rfl, (drawFrac_range qr).1, (drawFrac_range qr).2, rfl, rfl⟩,
    rfl, rfl, rfl, rfl, rfl, rfl⟩
  · exact (drawInt_range 40 860 qx (by norm_num)).1
  · exact (drawInt_range 40 860 qx (by norm_num)).2

/-- C6 witness: the spawner theorem applied to the initial state (countdown
0, so the first tick spawns) under the concrete trace oracle. -/
theorem spawner_behavior_witness :
    spawnPhase traceOracle init = { init with
      spawn_timer := drawInt 18 42 (traceOracle init.rng)
      enemies := init.enemies ++
        [spawn_enemy (traceOracle (init.rng + 1)) (traceOracle (init.rng + 2))
          (traceOracle (init.rng + 3)) (traceOracle (init.rng + 4))]
      rng := init.rng + 5 }
    ∧ 18 ≤ drawInt 18 42 (traceOracle init.rng)
    ∧ drawInt 18 42 (traceOracle init.rng) ≤ 42 :=
  spawner_behavior.2.1 traceOracle init (by norm_num [init])

/-!  C8: score accounting. -/

theorem resolveProjectiles_enemies_le (ps : List Projectile) :
    ∀ (es : List Enemy) (xs : List Explosion) (sc : ℤ),
      (resolveProjectiles ps es xs sc).2.1.length ≤ es.length := by
  induction ps with
  | nil => intro es xs sc; exact le_refl _
  | cons p ps ih =>
    intro es xs sc
    cases h : splitFirstHit p.rect es with
    | none =>
      rw [resolveProjectiles_miss p ps es xs sc h]
      exact ih es xs sc
    | some t =>
      obtain ⟨pre, e, post⟩ := t
      rw [resolveProjectiles_hit p ps es xs sc pre e post h]
      obtain ⟨hsplit, -, -⟩ := splitFirstHit_spec p.rect es pre e post h
      subst hsplit
      by_cases hk : e.hp - 1 ≤ 0
      · rw [if_pos hk, if_pos hk]
        have h1 := ih (pre ++ post) (xs ++ [Explosion.make p.c (p.radius * 2)
          (projColor p.element)]) (sc + 5)
        simp only [List.length_append, List.length_cons] at h1 ⊢
        omega
      · rw [if_neg hk, if_neg hk]
        have h1 := ih (pre ++ { e with hp := e.hp - 1 } :: post)
          (xs ++ [Explosion.make p.c (p.radius * 2) (projColor p.element)]) sc
        simp only [List.length_append, List.length_cons] at h1 ⊢
        omega

theorem resolveProjectiles_score (ps : List Projectile) :
    ∀ (es : List Enemy) (xs : List Explosion) (sc : ℤ),
      (resolveProjectiles ps es xs sc).2.2.2 =
        sc + 5 * ((es.length : ℤ) - ((resolveProjectiles ps es xs sc).2.1.length : ℤ)) := by
  induction ps with
  | nil => intro es xs sc; simp [resolveProjectiles]
  | cons p ps ih =>
    intro es xs sc
    cases h : splitFirstHit p.rect es with
    | none =>
      rw [resolveProjectiles_miss p ps es xs sc h]
      exact ih es xs sc
    | some t =>
      obtain ⟨pre, e, post⟩ := t
      rw [resolveProjectiles_hit p ps es xs sc pre e post h]
      obtain ⟨hsplit, -, -⟩ := splitFirstHit_spec p.rect es pre e post h
      subst hsplit
      by_cases hk : e.hp - 1 ≤ 0
      · rw [if_pos hk, if_pos hk]
        rw [ih (pre ++ post) (xs ++ [Explosion.make p.c (p.radius * 2)
          (projColor p.element)]) (sc + 5)]
        simp only [List.length_append, List.length_cons]
        push_cast
        ring
      · rw [if_neg hk, if_neg hk]
        rw [ih (pre ++ { e with hp := e.hp - 1 } :: post)
          (xs ++ [Explosion.make p.c (p.radius * 2) (projColor p.element)]) sc]
        simp only [List.length_append, List.length_cons]

theorem enemyPlayerPhase_score (s : State) :
    (enemyPlayerPhase s).player.score = s.player.score := by
  rcases enemyPlayerPhase_cases s with ⟨-, -, h⟩ | ⟨-, -, h⟩ <;> exact h

theorem step_score_mono (o : ℕ → ℚ) (i : Input) (s s' : State)
    (h : step o i s = some s') : s.player.score ≤ s'.player.score := by
  rw [step] at h
  by_cases hr : s.running
  · rw [if_pos hr] at h
    obtain ⟨s4, hf, hs'⟩ := tick_some o i s s' h
    have h4 : s4.player.score = s.player.score := by
      rw [shootPhase_player o _ s4 hf,
        (updatePhase_player i.keys (spawnPhase o (processEvents i.events s))).2,
        spawnPhase_player, (processEvents_player i.events s).2]
    have h5 : s.player.score ≤ (projEnemyPhase s4).player.score := by
      have hgoal : (projEnemyPhase s4).player.score =
          (resolveProjectiles s4.projectiles s4.enemies s4.explosions s4.player.score).2.2.2 :=
        rfl
      rw [hgoal, resolveProjectiles_score]
      have hle := resolveProjectiles_enemies_le s4.projectiles s4.enemies s4.explosions
        s4.player.score
      rw [h4] at hle ⊢
      omega
    have h6 := bombPlayerPhase_cases (projEnemyPhase s4)
    have h7 := enemyPlayerPhase_cases (bombPlayerPhase (projEnemyPhase s4))
    subst hs'
    rcases h6 with ⟨-, -, h6s⟩ | ⟨-, -, h6s⟩ <;> rcases h7 with ⟨-, -, h7s⟩ | ⟨-, -, h7s⟩ <;>
      rw [h7s, h6s] <;> exact h5
  · rw [if_neg hr, Option.some_inj] at h
    subst h
    exact le_refl _

/-- C8.  Over every executed tick the player's score is non-decreasing;
inside the projectile × enemy resolution the score grows by exactly 5 per
enemy removed there (each removal being an hp crossing from > 0 to ≤ 0),
and the enemy × player collision phase — which destroys an enemy without
its hp crossing 0 — never changes the score. -/
theorem score_accounting :
    (∀ (o : ℕ → ℚ) (i : Input) (s s' : State), step o i s = some s' →
        s.player.score ≤ s'.player.score)
    ∧ (∀ (ps : List Projectile) (es : List Enemy) (xs : List Explosion) (sc : ℤ),
        (resolveProjectiles ps es xs sc).2.2.2 =
          sc + 5 * ((es.length : ℤ) - ((resolveProjectiles ps es xs sc).2.1.length : ℤ)))
    ∧ (∀ s : State, (enemyPlayerPhase s).player.score = s.player.score) :=
  ⟨step_score_mono, fun ps es xs sc => resolveProjectiles_score ps es xs sc,
    enemyPlayerPhase_score⟩

/-- C8 witness: the score-monotonicity part applied to the concrete first
tick of the trace game, and the exact-increment part at a concrete
one-projectile, one-enemy resolution. -/
theorem score_accounting_witness :
    init.player.score ≤ ((run traceOracle traceInput 1).getD init).player.score
    ∧ (resolveProjectiles [projW] [enemyHitW] [] 0).2.2.2 =
        0 + 5 * (([enemyHitW].length : ℤ)
          - ((resolveProjectiles [projW] [enemyHitW] [] 0).2.1.length : ℤ)) :=
  ⟨score_accounting.1 traceOracle (traceInput 0) init _ (by with_unfolding_all rfl),
   score_accounting.2.1 [projW] [enemyHitW] [] 0⟩

/-!  C9: projectile off-screen cleanup. -/

/-- Concrete projectile one step above the top edge: after its update the
position has `y = -1 < 0` while the bounding box still reaches into the
playfield. -/
def projEdge : Projectile := Projectile.make (450, 7) (0, -8) .Air

/-- C9, counterexample to the claim as stated: after the position update
the projectile's position satisfies `y < 0`, yet `update` keeps it alive —
the source only kills a projectile once the whole bounding box has left
the playfield (`rect.bottom < 0`), not when the position coordinate does. -/
theorem projectile_cleanup_counterexample :
    projEdge.pos.2 + projEdge.vel.2 < 0 ∧ (Projectile.update projEdge).isSome = true := by
  constructor
  · show ((7 : ℤ) : ℚ) + (-8 : ℚ) < 0
    norm_num
  · with_unfolding_all rfl

/-- C9, amended.  `Projectile.update` removes the projectile exactly when
its refreshed bounding box is fully outside the playfield: center below
`-radius`, center above `HEIGHT + radius`, or center beyond `WIDTH +
radius` / `-radius` horizontally. -/
theorem projectile_cleanup_amended (p : Projectile) :
    Projectile.update p = none ↔
      (pyInt (p.pos.2 + p.vel.2) + p.radius < 0
       ∨ pyInt (p.pos.2 + p.vel.2) - p.radius > HEIGHT
       ∨ pyInt (p.pos.1 + p.vel.1) - p.radius > WIDTH
       ∨ pyInt (p.pos.1 + p.vel.1) + p.radius < 0) := by
  simp only [Projectile.update, rectFromCenter]
  split
  · rename_i hcond
    simp only [true_iff]
    rw [HEIGHT, WIDTH] at *
    rcases hcond with h1 | h1 | h1 | h1
    · left; omega
    · right; left; omega
    · right; right; left; omega
    · right; right; right; omega
  · rename_i hcond
    rw [HEIGHT, WIDTH] at *
    constructor
    · intro hfalse; exact Option.noConfusion hfalse
    · intro hd
      exfalso
      apply hcond
      rcases hd with h1 | h1 | h1 | h1
      · left; omega
      · right; left; omega
      · right; right; left; omega
      · right; right; right; omega

/-!  C10: bomb construction at coincident centers. -/

theorem Bomb.make_self (c : ℤ × ℤ) : Bomb.make c c = none := by
  simp [Bomb.make]

theorem Bomb.make_none_iff (p t : ℤ × ℤ) (h : Bomb.make p t = none) : t = p := by
  by_cases hd : (((t.1 : ℚ)) - ((p.1 : ℚ)), ((t.2 : ℚ)) - ((p.2 : ℚ))) = ((0 : ℚ), (0 : ℚ))
  · have h1 : ((t.1 : ℚ)) = ((p.1 : ℚ)) := by
      have := congrArg Prod.fst hd
      simpa [sub_eq_zero] using this
    have h2 : ((t.2 : ℚ)) = ((p.2 : ℚ)) := by
      have := congrArg Prod.snd hd
      simpa [sub_eq_zero] using this
    exact Prod.ext (by exact_mod_cast h1) (by exact_mod_cast h2)
  · rw [Bomb.make] at h
    rw [if_neg hd] at h
    exact Option.noConfusion h

/-- C10.  `Bomb.__init__` is not total: when the spawn position coincides
with the target (the enemy's center equal to the player's center), the
normalization of the zero direction vector fails (`ValueError` in pygame,
`none` in the model); for every other target the construction succeeds. -/
theorem bomb_zero_vector :
    (∀ c : ℤ × ℤ, Bomb.make c c = none)
    ∧ (∀ p t : ℤ × ℤ, Bomb.make p t = none → t = p) :=
  ⟨Bomb.make_self, Bomb.make_none_iff⟩

/-- C10 witness: the theorem applied at concrete centers. -/
theorem bomb_zero_vector_witness :
    Bomb.make ((450, 16) : ℤ × ℤ) ((450, 16) : ℤ × ℤ) = none
    ∧ ((3, 4) : ℤ × ℤ) = ((3, 4) : ℤ × ℤ) :=
  ⟨bomb_zero_vector.1 (450, 16),
   bomb_zero_vector.2 (3, 4) (3, 4) (bomb_zero_vector.1 (3, 4))⟩

end JetShooter
